import Mathlib

/-!
Verification of the JoinMarket core coinjoin logic (jmclient/maker.py and
jmclient/taker.py), via a shallow embedding of the functions the claims
concern.  Satoshi amounts are Int (change values can be negative), relative
coinjoin fees are Rat with floor, outpoints and scripts are strings as in the
source ("txid:index" keys, hex script strings).  External collaborators
(wallet, blockchain interface, jmbitcoin primitives) are passed in as
explicit parameters or pre-computed results, mirroring the call sites.
-/

namespace JoinMarket

/-- Offer ordertype field: relative / absolute fee, legacy / segwit. -/
inductive OrderType
  | reloffer
  | absoffer
  | swreloffer
  | swabsoffer
deriving DecidableEq, Repr

/-- Modelled from the spec: calc_cj_fee lives in jmclient.support, which is
not under src/.  Spec 4.2: the real coinjoin fee equals cjfee for absolute
ordertypes and floor(amount * cjfee) for relative ordertypes, rounding toward
zero, all arithmetic in satoshis. -/
def calc_cj_fee (ordertype : OrderType) (cjfee : Rat) (amount : Int) : Int :=
  match ordertype with
  | .absoffer | .swabsoffer => cjfee.floor
  | .reloffer | .swreloffer => (cjfee * (amount : Rat)).floor

/-- Transaction outpoint: txd ins outpoint dict with hash and index fields. -/
structure Outpoint where
  hash : String
  index : Nat
deriving DecidableEq, Repr

/-- A transaction input: the outpoint, the script field (scriptSig hex
string; the empty string when unsigned, the placeholder string deadbeef for
taker-owned inputs after receive_utxos), and the txinwitness list (empty
when absent). -/
structure TxIn where
  outpoint : Outpoint
  script : String
  txinwitness : List String := []
deriving DecidableEq, Repr

/-- A transaction output: scriptPubKey (hex string) and value in satoshis. -/
structure TxOut where
  script : String
  value : Int
deriving DecidableEq, Repr

/-- A deserialized transaction, as used by Maker.verify_unsigned_tx. -/
structure Tx where
  ins : List TxIn
  outs : List TxOut
deriving DecidableEq, Repr

/-- The outpoint string key built throughout the source:
ins outpoint hash + ":" + str(ins outpoint index). -/
def outpointKey (i : TxIn) : String :=
  i.outpoint.hash ++ ":" ++ toString i.outpoint.index

/-- A wallet utxo record as stored in offerinfo utxos (address and value
fields are the ones read by the Maker). -/
structure UtxoInfo where
  address : String
  value : Int
deriving DecidableEq, Repr

/-- The offer fields read by verify_unsigned_tx. -/
structure Offer where
  ordertype : OrderType
  cjfee : Rat
  txfee : Int
deriving DecidableEq, Repr

/-- The offerinfo dict of maker.py: utxos keyed by outpoint string, the two
maker addresses, the coinjoin amount, and the agreed offer. -/
structure OfferInfo where
  utxos : List (String × UtxoInfo)
  cjaddr : String
  changeaddr : String
  amount : Int
  offer : Offer
deriving DecidableEq, Repr

/-- The output-scanning loop of Maker.verify_unsigned_tx (maker.py lines
214-229): walk the outputs keeping two counters; any output paying the
coinjoin script with value different from amount, or paying the change
script with value different from the expected change value, rejects
immediately; at the end each script must have been seen exactly once.
Both script tests run on each output, as in the source (two ifs, no elif). -/
def scanOuts (cjScript chScript : String) (amount ecv : Int) :
    List TxOut → Nat → Nat → Bool × Option String
  | [], seenCj, seenCh =>
    if seenCj ≠ 1 ∨ seenCh ≠ 1 then
      (false, some "cj or change addr not in tx outputs once")
    else
      (true, none)
  | o :: rest, seenCj, seenCh =>
    let seenCj2 := if o.script = cjScript then seenCj + 1 else seenCj
    if o.script = cjScript ∧ o.value ≠ amount then
      (false, some "Wrong cj_amount")
    else
      let seenCh2 := if o.script = chScript then seenCh + 1 else seenCh
      if o.script = chScript ∧ o.value ≠ ecv then
        (false, some "wrong change")
      else
        scanOuts cjScript chScript amount ecv rest seenCj2 seenCh2

/-- Maker.verify_unsigned_tx (maker.py lines 169-230), parametrised over
btc.address_to_script.  Returns the pair (goodtx, errmsg): (true, none) on
acceptance, (false, some reason) on rejection. -/
def verify_unsigned_tx (addrToScript : String → String) (txd : Tx)
    (offerinfo : OfferInfo) : Bool × Option String :=
  let tx_utxo_set := txd.ins.map outpointKey
  let utxos := offerinfo.utxos
  let cjaddr_script := addrToScript offerinfo.cjaddr
  let changeaddr_script := addrToScript offerinfo.changeaddr
  let amount := offerinfo.amount
  let cjfee := offerinfo.offer.cjfee
  let txfee := offerinfo.offer.txfee
  let ordertype := offerinfo.offer.ordertype
  let my_utxo_set := utxos.map Prod.fst
  if ¬ my_utxo_set.all (fun u => tx_utxo_set.contains u) then
    (false, some "my utxos are not contained")
  else
    let my_total_in := (utxos.map (fun p => p.2.value)).sum
    let real_cjfee := calc_cj_fee ordertype cjfee amount
    let expected_change_value := my_total_in - amount - txfee + real_cjfee
    scanOuts cjaddr_script changeaddr_script amount expected_change_value
      txd.outs 0 0

/-- The expected maker change value computed by verify_unsigned_tx:
sum of the offerinfo utxo values minus amount minus txfee plus the real
coinjoin fee. -/
def expectedChange (oi : OfferInfo) : Int :=
  (oi.utxos.map (fun p => p.2.value)).sum - oi.amount - oi.offer.txfee +
    calc_cj_fee oi.offer.ordertype oi.offer.cjfee oi.amount

theorem scanOuts_sound (cjS chS : String) (amt ecv : Int) :
    ∀ (outs : List TxOut) (sc sh : Nat),
    (scanOuts cjS chS amt ecv outs sc sh).1 = true →
    sc + outs.countP (fun o => o.script == cjS) = 1 ∧
    sh + outs.countP (fun o => o.script == chS) = 1 ∧
    ∀ o ∈ outs, (o.script = cjS → o.value = amt) ∧
      (o.script = chS → o.value = ecv) := by
  intro outs
  induction outs with
  | nil =>
    intro sc sh h
    simp only [scanOuts] at h
    split at h
    · simp at h
    · rename_i hc
      push_neg at hc
      refine ⟨by simpa using hc.1, by simpa using hc.2, by simp⟩
  | cons o rest ih =>
    intro sc sh h
    simp only [scanOuts] at h
    split at h
    · simp at h
    · rename_i hcj
      split at h
      · simp at h
      · rename_i hch
        have hrest := ih _ _ h
        have hc1 : (if o.script = cjS then sc + 1 else sc) +
            rest.countP (fun x => x.script == cjS) = 1 := hrest.1
        have hc2 : (if o.script = chS then sh + 1 else sh) +
            rest.countP (fun x => x.script == chS) = 1 := hrest.2.1
        rw [Decidable.not_and_iff_or_not] at hcj hch
        constructor
        · rw [List.countP_cons]
          by_cases hsc : o.script = cjS
          · simp only [if_pos hsc] at hc1
            simp only [hsc, beq_self_eq_true, if_pos]
            omega
          · simp only [if_neg hsc] at hc1
            have hb : (o.script == cjS) = false := by simpa using hsc
            simp only [hb, Bool.false_eq_true, if_neg, not_false_iff]
            omega
        constructor
        · rw [List.countP_cons]
          by_cases hsh : o.script = chS
          · simp only [if_pos hsh] at hc2
            simp only [hsh, beq_self_eq_true, if_pos]
            omega
          · simp only [if_neg hsh] at hc2
            have hb : (o.script == chS) = false := by simpa using hsh
            simp only [hb, Bool.false_eq_true, if_neg, not_false_iff]
            omega
        · intro x hx
          rcases List.mem_cons.mp hx with h1 | h1
          · subst h1
            constructor
            · intro hs
              rcases hcj with hcj | hcj
              · exact absurd hs hcj
              · simpa using hcj
            · intro hs
              rcases hch with hch | hch
              · exact absurd hs hch
              · simpa using hch
          · exact hrest.2.2 x h1

/-- C1: for every deserialized transaction and offerinfo record accepted by
Maker.verify_unsigned_tx (result (true, none)), all offerinfo utxo keys
appear among the transaction input outpoint keys, exactly one output pays
the coinjoin address script and it carries exactly the offerinfo amount, and
exactly one output pays the change address script and it carries exactly
sum(utxo values) - amount - offer.txfee + real_cj_fee(ordertype, cjfee,
amount). -/
theorem verify_unsigned_tx_accepts_sound (a2s : String → String) (txd : Tx)
    (oi : OfferInfo) (hacc : (verify_unsigned_tx a2s txd oi).1 = true) :
    (∀ u ∈ oi.utxos.map Prod.fst, u ∈ txd.ins.map outpointKey) ∧
    txd.outs.countP (fun o => o.script == a2s oi.cjaddr) = 1 ∧
    (∀ o ∈ txd.outs, o.script = a2s oi.cjaddr → o.value = oi.amount) ∧
    txd.outs.countP (fun o => o.script == a2s oi.changeaddr) = 1 ∧
    (∀ o ∈ txd.outs, o.script = a2s oi.changeaddr →
      o.value = expectedChange oi) := by
  unfold verify_unsigned_tx at hacc
  simp only at hacc
  split at hacc
  · simp at hacc
  · rename_i hsup
    have hscan := scanOuts_sound (a2s oi.cjaddr) (a2s oi.changeaddr)
      oi.amount (expectedChange oi) txd.outs 0 0 (by
        simpa [expectedChange] using hacc)
    have hmem : ∀ u ∈ oi.utxos.map Prod.fst, u ∈ txd.ins.map outpointKey := by
      rw [Decidable.not_not] at hsup
      intro u hu
      have := List.all_eq_true.mp hsup u hu
      exact List.mem_of_elem_eq_true (by simpa using this)
    exact ⟨hmem, by simpa using hscan.1, fun o ho hs => (hscan.2.2 o ho).1 hs,
      by simpa using hscan.2.1, fun o ho hs => (hscan.2.2 o ho).2 hs⟩

/-- A concrete address-to-script map used for evaluation. -/
def a2sEx : String → String := fun a => "spk-" ++ a

/-- A concrete offerinfo: one 5000 sat input, amount 2000, absolute fee 100,
txfee contribution 50, so the expected change is 5000-2000-50+100 = 3050. -/
def oiEx : OfferInfo :=
  ⟨[("aa:0", ⟨"addr1", 5000⟩)], "CJ", "CH", 2000, ⟨.absoffer, 100, 50⟩⟩

/-- A concrete transaction satisfying oiEx. -/
def txEx : Tx :=
  ⟨[⟨⟨"aa", 0⟩, "", []⟩], [⟨"spk-CJ", 2000⟩, ⟨"spk-CH", 3050⟩]⟩

theorem verify_unsigned_tx_accepts_sound_witness :
    txEx.outs.countP (fun o => o.script == a2sEx oiEx.cjaddr) = 1 ∧
    txEx.outs.countP (fun o => o.script == a2sEx oiEx.changeaddr) = 1 :=
  ⟨(verify_unsigned_tx_accepts_sound a2sEx txEx oiEx (by decide)).2.1,
   (verify_unsigned_tx_accepts_sound a2sEx txEx oiEx (by decide)).2.2.2.1⟩

/-- C2: the equal-value checks of Maker.verify_unsigned_tx apply to every
output paying the coinjoin or change script, not only to one: any single
output paying the coinjoin script with value different from the offerinfo
amount, or paying the change script with value different from the expected
change, makes verify_unsigned_tx reject the whole transaction, so a
transaction with one correctly-valued and one wrongly-valued output to the
same address is rejected. -/
theorem verify_unsigned_tx_wrong_value_rejected (a2s : String → String)
    (txd : Tx) (oi : OfferInfo) (o : TxOut) (ho : o ∈ txd.outs)
    (hbad : (o.script = a2s oi.cjaddr ∧ o.value ≠ oi.amount) ∨
            (o.script = a2s oi.changeaddr ∧ o.value ≠ expectedChange oi)) :
    (verify_unsigned_tx a2s txd oi).1 = false := by
  cases hres : (verify_unsigned_tx a2s txd oi).1
  · rfl
  · exfalso
    unfold verify_unsigned_tx at hres
    simp only at hres
    split at hres
    · simp at hres
    · have hscan := scanOuts_sound (a2s oi.cjaddr) (a2s oi.changeaddr)
        oi.amount (expectedChange oi) txd.outs 0 0 (by
          simpa [expectedChange] using hres)
      rcases hbad with ⟨hs, hv⟩ | ⟨hs, hv⟩
      · exact hv ((hscan.2.2 o ho).1 hs)
      · exact hv ((hscan.2.2 o ho).2 hs)

/-- A transaction with one correctly-valued and one wrongly-valued output to
the coinjoin address of oiEx. -/
def txBadEx : Tx :=
  ⟨[⟨⟨"aa", 0⟩, "", []⟩],
   [⟨"spk-CJ", 2000⟩, ⟨"spk-CJ", 1999⟩, ⟨"spk-CH", 3050⟩]⟩

theorem verify_unsigned_tx_wrong_value_rejected_witness :
    (verify_unsigned_tx a2sEx txBadEx oiEx).1 = false :=
  verify_unsigned_tx_wrong_value_rejected a2sEx txBadEx oiEx
    ⟨"spk-CJ", 1999⟩ (by decide) (Or.inl ⟨by decide, by decide⟩)

/-! ## Maker.on_auth_received (maker.py lines 49-111)

The external collaborators are passed as their results: the deserialized
revelation (none on PoDLEError), the verify_podle outcome, the
query_utxo_set result list, the pubkey_has_script outcome (false also
covers a raised EngineError, which the source turns into a rejection), and
the oid_to_order result (none when no utxos could be found). -/

/-- The cr_dict produced by PoDLE.deserialize_revelation. -/
structure CommitmentRevelation where
  P : String
  P2 : String
  sig : String
  e : String
  utxo : String
deriving DecidableEq, Repr

/-- One record returned by bc_interface.query_utxo_set with includeconf:
value in satoshis, confirmation count, scriptPubKey. -/
structure AuthUtxoRec where
  value : Nat
  confirms : Nat
  script : String
deriving DecidableEq, Repr

/-- The result of Maker.oid_to_order: chosen utxos and the two addresses. -/
structure OrderFill where
  utxos : List (String × UtxoInfo)
  cj_addr : String
  change_addr : String
deriving DecidableEq, Repr

/-- Result of Maker.on_auth_received: rejected models the tuple (False,),
accepted carries the data of the (True, utxos, auth_pub, cj_addr,
change_addr, btc_sig) reply. -/
inductive AuthResult
  | rejected
  | accepted (fill : OrderFill)
deriving DecidableEq, Repr

/-- Maker.on_auth_received (maker.py lines 49-111).  The required minimum
commitment-utxo value int(amount * taker_utxo_amtpercent / 100.0) is
modelled as Nat floor division, which agrees with Python int() truncation
for the non-negative satoshi amounts involved.  The exactly-one-valid-record
check models len(res) != 1 or not res[0]. -/
def on_auth_received (age amtpercent amount : Nat)
    (cr_deser : Option CommitmentRevelation) (podle_ok : Bool)
    (query_res : List (Option AuthUtxoRec)) (pubkey_ok : Bool)
    (fill : Option OrderFill) : AuthResult :=
  match cr_deser with
  | none => .rejected
  | some _cr =>
    if ¬ podle_ok then .rejected
    else
      match query_res with
      | [some r] =>
        if r.confirms < age then .rejected
        else
          let reqd_amt := amount * amtpercent / 100
          if r.value < reqd_amt then .rejected
          else if ¬ pubkey_ok then .rejected
          else
            match fill with
            | none => .rejected
            | some f => .accepted f
      | _ => .rejected

/-- C3: in Maker.on_auth_received, once the revelation deserializes and the
PoDLE proof verifies, the request is accepted only if the on-chain query of
the committed utxo returned exactly one valid record whose confirmation
count is at least taker_utxo_age and whose value is at least
floor(amount * taker_utxo_amtpercent / 100); whenever the query does not
return exactly one valid record, or the record is too young or too small,
the result is the rejection tuple (False,). -/
theorem on_auth_received_utxo_policy (age pct amount : Nat)
    (cr : CommitmentRevelation) (q : List (Option AuthUtxoRec))
    (pk : Bool) (fill : Option OrderFill) :
    (on_auth_received age pct amount (some cr) true q pk fill ≠ .rejected →
      ∃ r, q = [some r] ∧ age ≤ r.confirms ∧ amount * pct / 100 ≤ r.value) ∧
    (∀ r, q = [some r] → (r.confirms < age ∨ r.value < amount * pct / 100) →
      on_auth_received age pct amount (some cr) true q pk fill = .rejected) ∧
    ((∀ r : AuthUtxoRec, q ≠ [some r]) →
      on_auth_received age pct amount (some cr) true q pk fill = .rejected) := by
  refine ⟨?_, ?_, ?_⟩
  · intro hne
    match hq : q with
    | [] => simp [on_auth_received, hq] at hne
    | [none] => simp [on_auth_received] at hne
    | [some r] =>
      refine ⟨r, rfl, ?_, ?_⟩
      · by_contra hlt
        exact hne (by simp [on_auth_received, Nat.lt_of_not_le hlt])
      · by_contra hlt
        have h1 : ¬ r.confirms < age := by
          by_contra hc
          exact hne (by simp [on_auth_received, hc])
        exact hne (by
          simp [on_auth_received, h1, Nat.lt_of_not_le hlt])
    | x :: y :: rest => simp [on_auth_received] at hne
  · intro r hq hfail
    subst hq
    rcases hfail with hc | hv
    · simp [on_auth_received, hc]
    · by_cases hc : r.confirms < age
      · simp [on_auth_received, hc]
      · simp [on_auth_received, hc, hv]
  · intro hnone
    match hq : q with
    | [] => simp [on_auth_received]
    | [none] => simp [on_auth_received]
    | [some r] => exact absurd rfl (hnone r)
    | x :: y :: rest => simp [on_auth_received]

theorem on_auth_received_utxo_policy_witness :
    on_auth_received 5 20 1000 (some ⟨"P", "P2", "s", "e", "u"⟩) true
      [some ⟨100, 3, "spk"⟩] true none = .rejected :=
  (on_auth_received_utxo_policy 5 20 1000 ⟨"P", "P2", "s", "e", "u"⟩
      [some ⟨100, 3, "spk"⟩] true none).2.1
    ⟨100, 3, "spk"⟩ rfl (Or.inl (by decide))

/-! ## Taker.receive_utxos, taker change computation (taker.py lines 447-495)

Inputs: whether a taker change address exists (my_change_addr is set for
non-sweep transactions and None for sweeps), the initial total_txfee guess,
the re-estimated fee (estimate_tx_fee result, only consulted when a change
address exists), the accumulated maker txfee contributions and coinjoin
fees, the taker input total, the coinjoin amount, and
BITCOIN_DUST_THRESHOLD. -/

/-- Outcome of the taker change computation: valueError models the raised
ValueError (fee too large for our inputs), dropped models my_change_addr
being reset to None so no change output is appended (the leftover being
absorbed as miner fee), kept models appending the change output. -/
inductive ChangeOutcome
  | valueError
  | dropped (leftover : Int)
  | kept (value : Int)
deriving DecidableEq, Repr

/-- The change-value logic of Taker.receive_utxos (taker.py lines 447-495):
when a change address exists the fee is re-estimated, the taker fee share is
max(total_txfee - maker_txfee_contributions, 0), and the change value is
my_total_in - cjamount - cjfee_total - my_txfee; a non-positive change value
raises ValueError, a value at most the dust threshold drops the change
output, otherwise the output is kept.  Without a change address (sweep) no
change output exists and the leftover is only logged (1 satoshi of absolute
leftover silently, anything else with a warning). -/
def taker_change_outcome (hasChangeAddr : Bool)
    (total_txfee estimated_fee maker_txfee_contributions
     my_total_in cjamount cjfee_total dust : Int) : ChangeOutcome :=
  let fee := if hasChangeAddr then estimated_fee else total_txfee
  let my_txfee := max (fee - maker_txfee_contributions) 0
  let my_change_value := my_total_in - cjamount - cjfee_total - my_txfee
  if hasChangeAddr ∧ my_change_value ≤ 0 then .valueError
  else if hasChangeAddr ∧ my_change_value ≤ dust then .dropped my_change_value
  else if hasChangeAddr then .kept my_change_value
  else .dropped my_change_value

/-- C4 counterexample: with a change address, re-estimated fee 10 fully
covered by maker contributions of 10, taker inputs 1000 and coinjoin amount
1000, the taker change value is 0, which is at most the dust threshold 546;
the claim says such a change output is dropped and absorbed as miner fee,
but the code raises ValueError instead of dropping. -/
theorem taker_change_nonpositive_not_dropped :
    ((1000 : Int) - 1000 - 0 - max ((10 : Int) - 10) 0 ≤ 546) ∧
    taker_change_outcome true 0 10 10 1000 1000 0 546 =
      ChangeOutcome.valueError ∧
    taker_change_outcome true 0 10 10 1000 1000 0 546 ≠
      ChangeOutcome.dropped (1000 - 1000 - 0 - max ((10 : Int) - 10) 0) := by
  refine ⟨by decide, by decide, by decide⟩

/-- C4 amended: with a change address, the taker change value equals
my_total_in - cjamount - cjfee_total - max(estimated_fee -
maker_txfee_contributions, 0); if that value is non-positive the code raises
ValueError (aborting the transaction) rather than dropping; if it is
positive but at most the dust threshold the change output is dropped and the
value absorbed as miner fee; otherwise the change output is kept with
exactly that value. -/
theorem taker_change_outcome_cases (tf ef mtc mti cj cjf dust cv : Int)
    (hcv : cv = mti - cj - cjf - max (ef - mtc) 0) :
    taker_change_outcome true tf ef mtc mti cj cjf dust =
      (if cv ≤ 0 then .valueError
       else if cv ≤ dust then .dropped cv else .kept cv) := by
  subst hcv
  simp [taker_change_outcome]

theorem taker_change_outcome_cases_witness :
    taker_change_outcome true 0 1000 300 60000 50000 500 546 =
      ChangeOutcome.kept 8800 := by
  have h := taker_change_outcome_cases 0 1000 300 60000 50000 500 546 8800
    (by decide)
  simpa using h

/-! ## Taker.initialize, fractional coinjoin amounts (taker.py lines 163-181) -/

/-- A schedule entry (mixdepth, cjamount, n_counterparties, destination,
waittime, ...).  The amount is an int number of satoshis or a float
fraction; both variants are carried so that Python equality on the entry
can be modelled. -/
structure ScheduleEntry where
  mixdepth : Nat
  amtIsFloat : Bool
  amtFrac : Rat
  amtInt : Int
deriving DecidableEq, Repr

/-- Python equality between an int (si[0], the mixdepth) and a whole
schedule entry (a list): values of different types, so Python == is always
False and != always True, without raising. -/
def pyIntEqEntry (_n : Nat) (_e : ScheduleEntry) : Bool := false

/-- The balance-requery condition of Taker.initialize (taker.py lines
172-173): schedule_index == 0 or si[0] != schedule[schedule_index - 1].
Note that the source compares the current mixdepth si[0] against the whole
previous schedule entry, not against its mixdepth field. -/
def requery_condition_code (schedule : List ScheduleEntry) (idx : Nat)
    (si : ScheduleEntry) : Bool :=
  (idx == 0) ||
    (match schedule.get? (idx - 1) with
     | some prev => ! pyIntEqEntry si.mixdepth prev
     | none => true)

/-- The requery condition as the claim states it: the balance is queried
afresh only on the first schedule entry or when the mixdepth differs from
the previous schedule entry's mixdepth. -/
def requery_condition_claim (schedule : List ScheduleEntry) (idx : Nat)
    (si : ScheduleEntry) : Bool :=
  (idx == 0) ||
    (match schedule.get? (idx - 1) with
     | some prev => si.mixdepth != prev.mixdepth
     | none => true)

/-- The float-amount branch of Taker.initialize (taker.py lines 169-181):
refresh the stored mixdepth balance when the requery condition holds,
convert the fraction to satoshis with int() (floor for these non-negative
balances), and clamp up to mincjamount.  Returns the coinjoin amount and
the mixdepth balance in state after the entry. -/
def float_cjamount (schedule : List ScheduleEntry) (idx : Nat)
    (si : ScheduleEntry) (stateBal : Int) (walletBal : Nat → Int)
    (mincjamount : Int) : Int × Int :=
  let mixdepthbal :=
    if requery_condition_code schedule idx si then walletBal si.mixdepth
    else stateBal
  let cjamount := (si.amtFrac * (mixdepthbal : Rat)).floor
  let cjamount := if cjamount < mincjamount then mincjamount else cjamount
  (cjamount, mixdepthbal)

/-- A two-entry tumble schedule staying in mixdepth 0 with fractional
amounts. -/
def schedEx : List ScheduleEntry :=
  [⟨0, true, 1/2, 0⟩, ⟨0, true, 1/2, 0⟩]

/-- C7: the claim says the mixdepth balance is captured once at entry to the
mixdepth and reused when the previous schedule entry has the same mixdepth;
but the source compares si[0] (an int) with the whole previous schedule
entry (a list), a comparison that is always unequal in Python, so the
balance is re-queried on every entry.  At schedule index 1, with the balance
captured at index 0 being 1000 and the wallet now reporting 2000, the code
queries afresh and computes cjamount = floor(0.5 * 2000) = 1000, while under
the claim the stored balance 1000 would be reused giving 500; the claim's
own requery condition evaluates to false here. -/
theorem rat_floor_int_eq (q : Rat) (n : Int) (h : q = (n : Rat)) :
    q.floor = n := by
  subst h
  rw [Rat.floor_def']
  simp

theorem float_cjamount_requery_bug :
    float_cjamount schedEx 1 ⟨0, true, 1/2, 0⟩ 1000 (fun _ => 2000) 0 =
      (1000, 2000) ∧
    requery_condition_claim schedEx 1 ⟨0, true, 1/2, 0⟩ = false ∧
    ((1/2 : Rat) * ((1000 : Int) : Rat)).floor = 500 := by
  refine ⟨?_, by decide, rat_floor_int_eq _ 500 (by norm_num)⟩
  have hreq : requery_condition_code schedEx 1 ⟨0, true, 1/2, 0⟩ = true := by
    decide
  have hfl : ((1/2 : Rat) * ((2000 : Int) : Rat)).floor = 1000 :=
    rat_floor_int_eq _ 1000 (by norm_num)
  simp only [float_cjamount, hreq, eq_self_iff_true, if_true]
  rw [hfl]
  decide

/-! ## Taker entry points and the abort flag (taker.py lines 153-154,
341-342, 529-530) -/

/-- Python values returned by the Taker entry points when aborted: tupleF is
the tuple (False,), tupleFMsg carries (False, msg), boolF is the bare False,
and proceed stands for any result of the non-aborted remainder of the
body. -/
inductive PyRet
  | tupleF
  | tupleFMsg (msg : String)
  | boolF
  | proceed
deriving DecidableEq, Repr

/-- The per-transaction mutable taker state touched by the entry points. -/
structure TakerState where
  schedule_index : Int
  nonrespondants : List String
  outputs : List (String × Int)
deriving DecidableEq, Repr

/-- Entry guard of Taker.initialize (taker.py 153-154): on abort it returns
the tuple (False,) before touching any state. -/
def taker_init_entry (aborted : Bool) (st : TakerState)
    (body : TakerState → PyRet × TakerState) : PyRet × TakerState :=
  if aborted then (PyRet.tupleF, st) else body st

/-- Entry guard of Taker.receive_utxos (taker.py 341-342): on abort it
returns (False, "User aborted") before touching any state. -/
def receive_utxos_entry (aborted : Bool) (st : TakerState)
    (body : TakerState → PyRet × TakerState) : PyRet × TakerState :=
  if aborted then (PyRet.tupleFMsg "User aborted", st) else body st

/-- Entry guard of Taker.on_sig (taker.py 529-530): on abort it returns the
bare value False before touching any state. -/
def on_sig_entry (aborted : Bool) (st : TakerState)
    (body : TakerState → PyRet × TakerState) : PyRet × TakerState :=
  if aborted then (PyRet.boolF, st) else body st

/-- C8 counterexample: with the abort flag set, Taker.initialize returns the
tuple (False,) and Taker.on_sig returns the bare value False, neither of
which is the (False, "User aborted") return the claim states for every
entry point; only receive_utxos returns that pair. -/
theorem abort_return_values_differ :
    (taker_init_entry true ⟨0, [], []⟩ (fun s => (.proceed, s))).1 =
      PyRet.tupleF ∧
    PyRet.tupleF ≠ PyRet.tupleFMsg "User aborted" ∧
    (on_sig_entry true ⟨0, [], []⟩ (fun s => (.proceed, s))).1 =
      PyRet.boolF ∧
    PyRet.boolF ≠ PyRet.tupleFMsg "User aborted" ∧
    (receive_utxos_entry true ⟨0, [], []⟩ (fun s => (.proceed, s))).1 =
      PyRet.tupleFMsg "User aborted" := by
  refine ⟨by decide, by decide, by decide, by decide, by decide⟩

/-- C8 amended: when the abort flag is set at invocation, every Taker entry
point short-circuits immediately without mutating the per-transaction
state, but the returned values differ: initialize returns (False,),
receive_utxos returns (False, "User aborted"), and on_sig returns the bare
value False. -/
theorem abort_short_circuit (st : TakerState)
    (body : TakerState → PyRet × TakerState) :
    taker_init_entry true st body = (PyRet.tupleF, st) ∧
    receive_utxos_entry true st body = (PyRet.tupleFMsg "User aborted", st) ∧
    on_sig_entry true st body = (PyRet.boolF, st) :=
  ⟨rfl, rfl, rfl⟩

/-! ## Taker.receive_utxos, counterparty rejection loop (taker.py lines
344-363)

Each entry of ioauth_data is reduced to the outcome of the two checks the
loop performs on it: the auth_counterparty ecdsa verification and the two
validate_address calls. -/

/-- Outcomes of the per-nick checks of the first receive_utxos loop. -/
structure NickData where
  authOk : Bool
  cjAddrValid : Bool
  changeAddrValid : Bool
deriving DecidableEq, Repr

/-- The first loop of Taker.receive_utxos (taker.py lines 344-360): in
iteration order, a failed auth_counterparty appends the nick to
rejected_counterparties, and an invalid coinjoin or change address appends
the nick to rejected_counterparties and adds it to ignored_makers.  Both
checks run for every nick (no continue), so a nick failing both is appended
to the rejected list twice.  Returns (rejected_counterparties, makers newly
added to ignored_makers). -/
def reject_scan : List (String × NickData) → List String × List String
  | [] => ([], [])
  | (nick, d) :: rest =>
    let tail := reject_scan rest
    let rej0 : List String := if d.authOk then [] else [nick]
    let rejIgn : List String × List String :=
      if d.cjAddrValid && d.changeAddrValid then ([], [])
      else ([nick], [nick])
    (rej0 ++ rejIgn.1 ++ tail.1, rejIgn.2 ++ tail.2)

/-- Python del of a dict key: returns the dict without the key, or raises
KeyError (modelled by none) when the key is absent.  Keys are unique in a
dict, so removal by filter coincides with single-entry removal. -/
def py_del (m : List (String × NickData)) (k : String) :
    Option (List (String × NickData)) :=
  if m.any (fun p => p.1 == k) then some (m.filter (fun p => p.1 != k))
  else none

/-- The removal loop: for rc in rejected_counterparties, del ioauth_data[rc]
(taker.py lines 362-363). -/
def py_del_all : List (String × NickData) → List String →
    Option (List (String × NickData))
  | m, [] => some m
  | m, k :: ks =>
    match py_del m k with
    | none => none
    | some m2 => py_del_all m2 ks

/-- The rejection phase of Taker.receive_utxos: run the check loop, then
delete every rejected nick from ioauth_data; none models an uncaught
KeyError. -/
def receive_utxos_reject_phase (data : List (String × NickData)) :
    Option (List (String × NickData)) :=
  py_del_all data (reject_scan data).1

theorem reject_scan_fst_of_auth :
    ∀ (data : List (String × NickData)) (nick : String) (d : NickData),
    (nick, d) ∈ data → d.authOk = false → nick ∈ (reject_scan data).1 := by
  intro data
  induction data with
  | nil => intro nick d h; simp at h
  | cons p rest ih =>
    intro nick d hmem hauth
    rcases p with ⟨n2, d2⟩
    rcases List.mem_cons.mp hmem with he | hm
    · rw [Prod.mk.injEq] at he
      simp only [reject_scan, ← he.1, ← he.2, hauth, Bool.false_eq_true,
        if_neg, not_false_iff]
      simp
    · simp only [reject_scan, List.mem_append]
      exact Or.inr (ih nick d hm hauth)

theorem reject_scan_of_addr :
    ∀ (data : List (String × NickData)) (nick : String) (d : NickData),
    (nick, d) ∈ data → (d.cjAddrValid && d.changeAddrValid) = false →
    nick ∈ (reject_scan data).1 ∧ nick ∈ (reject_scan data).2 := by
  intro data
  induction data with
  | nil => intro nick d h; simp at h
  | cons p rest ih =>
    intro nick d hmem haddr
    rcases p with ⟨n2, d2⟩
    rcases List.mem_cons.mp hmem with he | hm
    · rw [Prod.mk.injEq] at he
      constructor
      · simp only [reject_scan, ← he.1, ← he.2, haddr, Bool.false_eq_true,
          if_neg, not_false_iff]
        simp
      · simp only [reject_scan, ← he.1, ← he.2, haddr, Bool.false_eq_true,
          if_neg, not_false_iff]
        simp
    · have h2 := ih nick d hm haddr
      constructor
      · simp only [reject_scan, List.mem_append]
        exact Or.inr h2.1
      · simp only [reject_scan, List.mem_append]
        exact Or.inr h2.2

theorem reject_scan_snd_source :
    ∀ (data : List (String × NickData)) (x : String),
    x ∈ (reject_scan data).2 →
    ∃ d2, (x, d2) ∈ data ∧ (d2.cjAddrValid && d2.changeAddrValid) = false := by
  intro data
  induction data with
  | nil => intro x h; simp [reject_scan] at h
  | cons p rest ih =>
    intro x h
    rcases p with ⟨n2, d2⟩
    simp only [reject_scan, List.mem_append] at h
    rcases h with h | h
    · by_cases hv : (d2.cjAddrValid && d2.changeAddrValid) = true
      · rw [if_pos hv] at h
        simp at h
      · rw [if_neg hv] at h
        simp only [List.mem_singleton] at h
        subst h
        exact ⟨d2, List.mem_cons_self _ _, by simpa using hv⟩
    · rcases ih x h with ⟨d3, hmem, hval⟩
      exact ⟨d3, List.mem_cons_of_mem _ hmem, hval⟩

theorem nodup_key_unique {α : Type} :
    ∀ (data : List (String × α)) (nick : String) (d d2 : α),
    (data.map Prod.fst).Nodup → (nick, d) ∈ data → (nick, d2) ∈ data →
    d = d2 := by
  intro data
  induction data with
  | nil => intro nick d d2 _ h; simp at h
  | cons p rest ih =>
    intro nick d d2 hnodup h1 h2
    rw [List.map_cons, List.nodup_cons] at hnodup
    rcases List.mem_cons.mp h1 with e1 | m1
    · rcases List.mem_cons.mp h2 with e2 | m2
      · rw [← e1] at e2
        rw [Prod.mk.injEq] at e2
        exact e2.2.symm
      · exfalso
        apply hnodup.1
        rw [← e1]
        show nick ∈ rest.map Prod.fst
        exact List.mem_map_of_mem Prod.fst m2
    · rcases List.mem_cons.mp h2 with e2 | m2
      · exfalso
        apply hnodup.1
        rw [← e2]
        show nick ∈ rest.map Prod.fst
        exact List.mem_map_of_mem Prod.fst m1
      · exact ih nick d d2 hnodup.2 m1 m2

/-- C5: in the first loop of Taker.receive_utxos, a counterparty whose
ecdsa authorisation fails is put on the rejected list (removed from this
transaction) but, as long as its addresses are valid, is not added to
ignored_makers; a counterparty with a syntactically invalid coinjoin or
change address is both rejected and added to ignored_makers. -/
theorem receive_utxos_reject_policy (data : List (String × NickData))
    (nick : String) (d : NickData) (hmem : (nick, d) ∈ data)
    (hnodup : (data.map Prod.fst).Nodup) :
    (d.authOk = false → nick ∈ (reject_scan data).1) ∧
    (d.cjAddrValid = true → d.changeAddrValid = true →
      nick ∉ (reject_scan data).2) ∧
    ((d.cjAddrValid = false ∨ d.changeAddrValid = false) →
      nick ∈ (reject_scan data).1 ∧ nick ∈ (reject_scan data).2) := by
  refine ⟨fun hauth => reject_scan_fst_of_auth data nick d hmem hauth,
    ?_, ?_⟩
  · intro hcj hch hsnd
    rcases reject_scan_snd_source data nick hsnd with ⟨d2, hmem2, hval⟩
    have hd : d = d2 := nodup_key_unique data nick d d2 hnodup hmem hmem2
    rw [← hd, hcj, hch] at hval
    simp at hval
  · intro hbad
    apply reject_scan_of_addr data nick d hmem
    rcases hbad with h | h <;> simp [h]

theorem receive_utxos_reject_policy_witness :
    ("A" ∈ (reject_scan [("A", ⟨false, true, true⟩),
        ("B", ⟨true, false, true⟩)]).1) ∧
    ("A" ∉ (reject_scan [("A", ⟨false, true, true⟩),
        ("B", ⟨true, false, true⟩)]).2) ∧
    ("B" ∈ (reject_scan [("A", ⟨false, true, true⟩),
        ("B", ⟨true, false, true⟩)]).1 ∧
     "B" ∈ (reject_scan [("A", ⟨false, true, true⟩),
        ("B", ⟨true, false, true⟩)]).2) := by
  have hA := receive_utxos_reject_policy
    [("A", ⟨false, true, true⟩), ("B", ⟨true, false, true⟩)]
    "A" ⟨false, true, true⟩ (List.mem_cons_self _ _) (by decide)
  have hB := receive_utxos_reject_policy
    [("A", ⟨false, true, true⟩), ("B", ⟨true, false, true⟩)]
    "B" ⟨true, false, true⟩
    (List.mem_cons_of_mem _ (List.mem_cons_self _ _)) (by decide)
  exact ⟨hA.1 rfl, hA.2.1 rfl rfl, hB.2.2 (Or.inl rfl)⟩

/-- C10: a counterparty failing both the ecdsa check and the address check
is appended to rejected_counterparties twice; the removal loop then deletes
the same ioauth_data key twice and the second del raises KeyError, so
receive_utxos faults instead of returning a result.  The spec (section 7)
states that no exception propagates across the relay boundary, so this is a
slip in the code. -/
theorem receive_utxos_double_rejection_faults :
    reject_scan [("M1", ⟨false, false, true⟩)] = (["M1", "M1"], ["M1"]) ∧
    receive_utxos_reject_phase [("M1", ⟨false, false, true⟩)] = none ∧
    receive_utxos_reject_phase [("M1", ⟨false, true, true⟩)] = some [] := by
  refine ⟨by decide, by decide, by decide⟩

/-! ## Taker.receive_utxos, second loop (taker.py lines 367-445)

Per accepted nick, the loop queries the claimed utxos on chain, checks that
the auth pubkey matches one input script, computes the maker change and
drops the counterparty when the change is below DUST_THRESHOLD; otherwise
it appends the change and coinjoin outputs and accumulates the fee totals.
The on-chain query and pubkey check results are carried in the response
record. -/

/-- The data the second receive_utxos loop consumes for one nick: the
query_utxo_set values for its claimed utxos (none marks an unconfirmed or
spent utxo), whether the auth pubkey matched one of the input scripts, and
the relevant orderbook offer fields and reply addresses. -/
structure MakerResponse where
  utxoValues : List (Option Int)
  pubkeyMatches : Bool
  ordertype : OrderType
  cjfee : Rat
  txfee : Int
  cj_addr : String
  change_addr : String
deriving DecidableEq, Repr

/-- The taker-side accumulation state of the second loop: the growing
outputs list, the cjfee and maker-txfee totals, the accepted nicks (keys of
maker_utxo_data in insertion order) and the ignored_makers list, which this
loop never touches. -/
structure Phase2State where
  outputs : List (String × Int)
  cjfee_total : Int
  maker_txfee_contributions : Int
  accepted : List String
  ignored : List String
deriving DecidableEq, Repr

/-- One iteration of the second receive_utxos loop (taker.py lines
367-430): skip the nick when a utxo query came back none, when the auth
pubkey matches no input, or when the computed change amount is below the
dust threshold; otherwise append the change and coinjoin outputs,
accumulate the totals and accept the nick. -/
def process_nick (cjamount dust : Int) (st : Phase2State) (nick : String)
    (r : MakerResponse) : Phase2State :=
  if r.utxoValues.contains none then st
  else if ¬ r.pubkeyMatches then st
  else
    let total_input := (r.utxoValues.map (fun v => v.getD 0)).sum
    let real_cjfee := calc_cj_fee r.ordertype r.cjfee cjamount
    let change_amount := total_input - cjamount - r.txfee + real_cjfee
    if change_amount < dust then st
    else
      { outputs := st.outputs ++
          [(r.change_addr, change_amount), (r.cj_addr, cjamount)]
        cjfee_total := st.cjfee_total + real_cjfee
        maker_txfee_contributions := st.maker_txfee_contributions + r.txfee
        accepted := st.accepted ++ [nick]
        ignored := st.ignored }

/-- The whole second loop over ioauth_data in iteration order. -/
def phase2_loop (cjamount dust : Int) (st : Phase2State) :
    List (String × MakerResponse) → Phase2State
  | [] => st
  | (nick, r) :: rest =>
    phase2_loop cjamount dust (process_nick cjamount dust st nick r) rest

/-- The counterparty-count decision after the loop (taker.py lines
435-439): the transaction proceeds unless len(maker_utxo_data) is below
POLICY minimum_makers. -/
def phase2_decision (minimum_makers : Nat) (st : Phase2State) : Bool :=
  ! (st.accepted.length < minimum_makers)

/-- A nick the second loop skips without accepting: failed utxo query,
failed pubkey match, or sub-dust change. -/
def phase2_skipped (cjamount dust : Int) (r : MakerResponse) : Prop :=
  r.utxoValues.contains none = true ∨ r.pubkeyMatches = false ∨
    (r.utxoValues.map (fun v => v.getD 0)).sum - cjamount - r.txfee +
      calc_cj_fee r.ordertype r.cjfee cjamount < dust

theorem process_nick_skipped (cjamount dust : Int) (st : Phase2State)
    (nick : String) (r : MakerResponse)
    (h : phase2_skipped cjamount dust r) :
    process_nick cjamount dust st nick r = st := by
  by_cases h1 : r.utxoValues.contains none = true
  · simp only [process_nick]
    rw [if_pos h1]
  · by_cases h2 : r.pubkeyMatches = true
    · have h3 : (r.utxoValues.map (fun v => v.getD 0)).sum - cjamount -
          r.txfee + calc_cj_fee r.ordertype r.cjfee cjamount < dust := by
        rcases h with h | h | h
        · exact absurd h h1
        · rw [h] at h2; exact absurd h2 (by simp)
        · exact h
      simp only [process_nick]
      rw [if_neg h1, if_neg (not_not_intro h2), if_pos h3]
    · simp only [process_nick]
      rw [if_neg h1, if_pos h2]

theorem process_nick_accepted (cjamount dust : Int) (st : Phase2State)
    (nick : String) (r : MakerResponse) :
    (process_nick cjamount dust st nick r).accepted = st.accepted ∨
    (process_nick cjamount dust st nick r).accepted =
      st.accepted ++ [nick] := by
  simp only [process_nick]
  split_ifs <;> first | exact Or.inl rfl | exact Or.inr rfl

theorem process_nick_ignored (cjamount dust : Int) (st : Phase2State)
    (nick : String) (r : MakerResponse) :
    (process_nick cjamount dust st nick r).ignored = st.ignored := by
  simp only [process_nick]
  split_ifs <;> rfl

theorem phase2_loop_ignored (cjamount dust : Int) :
    ∀ (data : List (String × MakerResponse)) (st : Phase2State),
    (phase2_loop cjamount dust st data).ignored = st.ignored := by
  intro data
  induction data with
  | nil => intro st; rfl
  | cons p rest ih =>
    intro st
    rcases p with ⟨nick, r⟩
    rw [phase2_loop, ih, process_nick_ignored]

theorem phase2_loop_not_accepted (cjamount dust : Int) (nick : String) :
    ∀ (data : List (String × MakerResponse)) (st : Phase2State),
    nick ∉ st.accepted →
    (∀ r2, (nick, r2) ∈ data → phase2_skipped cjamount dust r2) →
    nick ∉ (phase2_loop cjamount dust st data).accepted := by
  intro data
  induction data with
  | nil => intro st h _; exact h
  | cons p rest ih =>
    intro st h hall
    rcases p with ⟨n2, r2⟩
    rw [phase2_loop]
    by_cases he : n2 = nick
    · subst he
      rw [process_nick_skipped cjamount dust st n2 r2
        (hall r2 (List.mem_cons_self _ _))]
      exact ih st h (fun r3 hr => hall r3 (List.mem_cons_of_mem _ hr))
    · apply ih
      · rcases process_nick_accepted cjamount dust st n2 r2 with hacc | hacc
        · rw [hacc]; exact h
        · rw [hacc]
          intro hc
          rcases List.mem_append.mp hc with hc | hc
          · exact h hc
          · exact he (List.mem_singleton.mp hc).symm
      · exact fun r3 hr => hall r3 (List.mem_cons_of_mem _ hr)

/-- C6: a counterparty that passes authentication (valid on-chain utxos and
a matching auth pubkey) but whose change amount, sum of claimed input
values - cjamount - offer txfee + real coinjoin fee, is below the dust
threshold is dropped from the transaction (never accepted into
maker_utxo_data) without being added to ignored_makers, and the transaction
proceeds whenever at least minimum_makers accepted counterparties remain. -/
theorem receive_utxos_subdust_dropped (cjamount dust : Int) (mm : Nat)
    (data : List (String × MakerResponse)) (st0 : Phase2State)
    (nick : String) (r : MakerResponse)
    (hmem : (nick, r) ∈ data)
    (hvalid : r.utxoValues.contains none = false)
    (hauth : r.pubkeyMatches = true)
    (hdust : (r.utxoValues.map (fun v => v.getD 0)).sum - cjamount -
      r.txfee + calc_cj_fee r.ordertype r.cjfee cjamount < dust)
    (hnick0 : nick ∉ st0.accepted)
    (hnodup : (data.map Prod.fst).Nodup) :
    nick ∉ (phase2_loop cjamount dust st0 data).accepted ∧
    (phase2_loop cjamount dust st0 data).ignored = st0.ignored ∧
    (mm ≤ (phase2_loop cjamount dust st0 data).accepted.length →
      phase2_decision mm (phase2_loop cjamount dust st0 data) = true) := by
  refine ⟨?_, phase2_loop_ignored cjamount dust data st0, ?_⟩
  · apply phase2_loop_not_accepted cjamount dust nick data st0 hnick0
    intro r2 hr2
    have : r = r2 := nodup_key_unique data nick r r2 hnodup hmem hr2
    rw [← this]
    exact Or.inr (Or.inr hdust)
  · intro hlen
    simp only [phase2_decision, Bool.not_eq_true', decide_eq_false_iff_not]
    omega

/-- An accepted maker response: one 20000 sat input against coinjoin amount
5000 and absolute fee 100 with txfee 0: change 15100, above dust. -/
def rAEx : MakerResponse :=
  ⟨[some 20000], true, .absoffer, 100, 0, "cjA", "chA"⟩

/-- A sub-dust maker response: one 4000 sat input against coinjoin amount
5000: change -900, below dust. -/
def rBEx : MakerResponse :=
  ⟨[some 4000], true, .absoffer, 100, 0, "cjB", "chB"⟩

def phase2DataEx : List (String × MakerResponse) := [("A", rAEx), ("B", rBEx)]

def phase2St0Ex : Phase2State := ⟨[], 0, 0, [], []⟩

theorem receive_utxos_subdust_dropped_witness :
    "B" ∉ (phase2_loop 5000 546 phase2St0Ex phase2DataEx).accepted ∧
    (phase2_loop 5000 546 phase2St0Ex phase2DataEx).ignored =
      phase2St0Ex.ignored ∧
    (1 ≤ (phase2_loop 5000 546 phase2St0Ex phase2DataEx).accepted.length →
      phase2_decision 1 (phase2_loop 5000 546 phase2St0Ex phase2DataEx) =
        true) := by
  have hfee : calc_cj_fee OrderType.absoffer (100 : Rat) 5000 = 100 := by
    show (100 : Rat).floor = 100
    exact rat_floor_int_eq _ 100 (by norm_num)
  exact receive_utxos_subdust_dropped 5000 546 1 phase2DataEx phase2St0Ex
    "B" rBEx (List.mem_cons_of_mem _ (List.mem_cons_self _ _))
    (by decide) rfl
    (by rw [show rBEx.ordertype = OrderType.absoffer from rfl,
            show rBEx.cjfee = (100 : Rat) from rfl, hfee]; decide)
    (by decide) (by decide)

/-! ## Taker.on_sig, signature insertion targets (taker.py lines 500-505,
542-548, 595-612) -/

/-- The candidate map built by Taker.on_sig (taker.py lines 542-549): the
enumeration of the transaction inputs restricted to those whose script
field is the empty string (the deadbeef markers keep taker-owned inputs
out), as pairs (input index, outpoint string). -/
def sign_candidates (ins : List TxIn) : List (Nat × String) :=
  (ins.enum.filter (fun p => p.2.script == "")).map
    (fun p => (p.1, outpointKey p.2))

/-- The placeholder marking of Taker.receive_utxos (taker.py lines
500-505): every input whose outpoint key belongs to the taker's own
input_utxos gets the script placeholder deadbeef. -/
def mark_taker_inputs (ins : List TxIn) (takerKeys : List String) :
    List TxIn :=
  ins.map (fun i =>
    if takerKeys.contains (outpointKey i) then { i with script := "deadbeef" }
    else i)

/-- The signature insertion step of Taker.on_sig (taker.py lines 595-612)
at input index idx: for a segwit-style signature set txinwitness to
[ver_sig, ver_pub] and the script to the empty string for a native-segwit
scriptPubKey or to the p2sh redeem script unit otherwise; for a legacy
signature write the whole sig script into the script field. -/
def insert_sig_at (ins : List TxIn) (idx : Nat) (isSegwitSig : Bool)
    (isNativeSpk : Bool) (ver_sig ver_pub sigscript redeemScript : String) :
    List TxIn :=
  ins.enum.map (fun p =>
    if p.1 = idx then
      if isSegwitSig then
        { p.2 with txinwitness := [ver_sig, ver_pub],
                   script := if isNativeSpk then "" else redeemScript }
      else
        { p.2 with script := sigscript }
    else p.2)

/-- The script field at an input index. -/
def candidate_script (ins : List TxIn) (idx : Nat) : Option String :=
  (ins.get? idx).map TxIn.script

/-- Whether the input at an index is taker-owned (its outpoint key is among
the taker's own input keys). -/
def candidate_taker_owned (takerKeys : List String) (ins : List TxIn)
    (idx : Nat) : Option Bool :=
  (ins.get? idx).map (fun i => takerKeys.contains (outpointKey i))

theorem mark_taker_unsigned_not_owned (ins : List TxIn)
    (takerKeys : List String) :
    ∀ j ∈ mark_taker_inputs ins takerKeys, j.script = "" →
      takerKeys.contains (outpointKey j) = false := by
  intro j hj hscript
  rcases List.mem_map.mp hj with ⟨i, _hi, hji⟩
  by_cases hc : takerKeys.contains (outpointKey i) = true
  · rw [← hji, if_pos hc] at hscript
    simp at hscript
  · rw [← hji, if_neg hc]
    simpa using hc

/-- C9 counterexample to the overwrite part of the claim: a maker input
carrying a native-segwit scriptPubKey is signed by setting its witness and
resetting its script to the empty string, so the input stays in the
candidate map of a later on_sig call and a second signature insertion
overwrites the witness of the already-signed input. -/
theorem on_sig_native_segwit_overwrite :
    insert_sig_at [⟨⟨"cafe", 0⟩, "", []⟩] 0 true true "s1" "p1" "" "" =
      [⟨⟨"cafe", 0⟩, "", ["s1", "p1"]⟩] ∧
    sign_candidates [⟨⟨"cafe", 0⟩, "", ["s1", "p1"]⟩] = [(0, "cafe:0")] ∧
    insert_sig_at [⟨⟨"cafe", 0⟩, "", ["s1", "p1"]⟩] 0 true true "s2" "p2"
      "" "" = [⟨⟨"cafe", 0⟩, "", ["s2", "p2"]⟩] := by
  refine ⟨by decide, by decide, by decide⟩

/-- C9 amended: Taker.on_sig considers writing a counterparty signature
only into transaction inputs whose script field is the empty string, and
since receive_utxos marks every taker-owned input with the placeholder
script deadbeef, a maker-supplied signature can never target a taker-owned
input; an input signed through the legacy or p2sh path gets a non-empty
script and also stops being a target, but an input signed through the
native-segwit path has its script reset to the empty string and remains a
target. -/
theorem on_sig_candidates_unsigned_nontaker (ins : List TxIn)
    (takerKeys : List String) (idx : Nat) (k : String)
    (h : (idx, k) ∈ sign_candidates (mark_taker_inputs ins takerKeys)) :
    candidate_script (mark_taker_inputs ins takerKeys) idx = some "" ∧
    candidate_taker_owned takerKeys (mark_taker_inputs ins takerKeys) idx =
      some false := by
  rcases List.mem_map.mp h with ⟨p, hpmem, hpeq⟩
  rcases List.mem_filter.mp hpmem with ⟨hpenum, hpscript⟩
  have hscript : p.2.script = "" := by simpa using hpscript
  have hidx : p.1 = idx := congrArg Prod.fst hpeq
  have hget : (mark_taker_inputs ins takerKeys).get? p.1 = some p.2 := by
    have hp : (p.1, p.2) ∈ (mark_taker_inputs ins takerKeys).enum := by
      simpa using hpenum
    exact List.mk_mem_enum_iff_get?.mp hp
  have hmem2 : p.2 ∈ mark_taker_inputs ins takerKeys :=
    List.get?_mem hget
  constructor
  · rw [candidate_script, ← hidx, hget, Option.map_some']
    rw [hscript]
  · rw [candidate_taker_owned, ← hidx, hget, Option.map_some']
    rw [mark_taker_unsigned_not_owned ins takerKeys p.2 hmem2 hscript]

theorem on_sig_candidates_unsigned_nontaker_witness :
    candidate_script
      (mark_taker_inputs [⟨⟨"aa", 0⟩, "", []⟩, ⟨⟨"bb", 0⟩, "", []⟩]
        ["bb:0"]) 0 = some "" ∧
    candidate_taker_owned ["bb:0"]
      (mark_taker_inputs [⟨⟨"aa", 0⟩, "", []⟩, ⟨⟨"bb", 0⟩, "", []⟩]
        ["bb:0"]) 0 = some false :=
  on_sig_candidates_unsigned_nontaker
    [⟨⟨"aa", 0⟩, "", []⟩, ⟨⟨"bb", 0⟩, "", []⟩] ["bb:0"] 0 "aa:0" (by decide)

end JoinMarket
